import Mathlib

/-!
# Elevator dispatch system — verification of the specification

Shallow embedding of the multi-car elevator dispatch system
(`7.elevator_system.py`): the per-car state machine (`Elevator`), the
nearest-car scheduler (`NearestCarScheduler`), and the fleet orchestrator
(`ElevatorController`).  Python `int` floors are modelled as `ℤ`; the two
pending-stop `set`s as `Finset ℤ`; the fallible list indexing of
`destination_request` as `Option` (a `none` result is Python's
`IndexError`).  Printing is the only behaviour dropped: it never affects
state.
-/

/-- `Direction` enum of the source: `UP`, `DOWN`, `IDLE`. -/
inductive Direction
  | up
  | down
  | idle
  deriving DecidableEq, Repr

/-- `ElevatorState` enum of the source:
`IDLE`, `MOVING`, `DOOR_OPEN`, `MAINTENANCE`. -/
inductive ElevatorState
  | idle
  | moving
  | door_open
  | maintenance
  deriving DecidableEq, Repr

/-- `Request`: a hall call — floor plus travel direction. -/
structure Request where
  floor : ℤ
  direction : Direction
  deriving DecidableEq, Repr

/-- The `Elevator` class state: id, current floor, travel direction,
operating state, top floor, the two pending-stop sets, and the (unused by
every method) capacity counters. -/
structure Elevator where
  elevator_id : ℤ
  current_floor : ℤ
  direction : Direction
  state : ElevatorState
  max_floor : ℤ
  up_stops : Finset ℤ
  down_stops : Finset ℤ
  capacity : ℤ
  current_load : ℤ

/-- Field-wise decidable equality (reduces without `Eq.rec`, so concrete
states can be compared by `decide`). -/
instance : DecidableEq Elevator := fun a b =>
  decidable_of_iff
    (a.elevator_id = b.elevator_id ∧ a.current_floor = b.current_floor
      ∧ a.direction = b.direction ∧ a.state = b.state ∧ a.max_floor = b.max_floor
      ∧ a.up_stops = b.up_stops ∧ a.down_stops = b.down_stops ∧ a.capacity = b.capacity
      ∧ a.current_load = b.current_load)
    (by cases a; cases b; simp)

/-- `Elevator.__init__(elevator_id, max_floor)`: floor 1, idle, empty
stop sets, capacity 10, load 0. -/
def Elevator.init (elevator_id max_floor : ℤ) : Elevator :=
  { elevator_id := elevator_id
    current_floor := 1
    direction := Direction.idle
    state := ElevatorState.idle
    max_floor := max_floor
    up_stops := ∅
    down_stops := ∅
    capacity := 10
    current_load := 0 }

/-- `Elevator.add_stop(floor)`: reject floors outside `[1, max_floor]`;
floors above the current one go to `up_stops`, floors below to
`down_stops`; a floor equal to the current one falls through both
branches and nothing happens. -/
def Elevator.add_stop (e : Elevator) (floor : ℤ) : Elevator :=
  if floor < 1 ∨ floor > e.max_floor then e
  else if floor > e.current_floor then { e with up_stops := insert floor e.up_stops }
  else if floor < e.current_floor then { e with down_stops := insert floor e.down_stops }
  else e

/-- `Elevator.should_stop()`: stop iff the current floor is pending in the
set of the active travel direction. -/
def Elevator.should_stop (e : Elevator) : Bool :=
  if e.direction = Direction.up ∧ e.current_floor ∈ e.up_stops then true
  else if e.direction = Direction.down ∧ e.current_floor ∈ e.down_stops then true
  else false

/-- `Elevator.close_door()`: only acts when the door is open. -/
def Elevator.close_door (e : Elevator) : Elevator :=
  if e.state = ElevatorState.door_open then { e with state := ElevatorState.idle } else e

/-- `Elevator.stop()`: open the door, drop the current floor from both
stop sets, then immediately close the door (so `door_open` is transient
inside the tick and the car ends the tick in `idle`). -/
def Elevator.stop (e : Elevator) : Elevator :=
  let e1 := { e with state := ElevatorState.door_open }
  let e2 := { e1 with up_stops := e1.up_stops.erase e1.current_floor
                      down_stops := e1.down_stops.erase e1.current_floor }
  e2.close_door

/-- `Elevator.move()`: one tick of the car state machine — maintenance
no-op; else serve a due stop; else go idle when nothing is pending; else
continue up when `up_stops` is non-empty and (`down_stops` is empty or
already travelling up); else go down. -/
def Elevator.move (e : Elevator) : Elevator :=
  if e.state = ElevatorState.maintenance then e
  else if e.should_stop then e.stop
  else if e.up_stops = ∅ ∧ e.down_stops = ∅ then
    { e with direction := Direction.idle, state := ElevatorState.idle }
  else if e.up_stops ≠ ∅ ∧ (e.down_stops = ∅ ∨ e.direction = Direction.up) then
    { e with direction := Direction.up
             state := ElevatorState.moving
             current_floor := e.current_floor + 1 }
  else if e.down_stops ≠ ∅ then
    { e with direction := Direction.down
             state := ElevatorState.moving
             current_floor := e.current_floor - 1 }
  else e

/-- `Elevator.is_available()`: every state except maintenance. -/
def Elevator.is_available (e : Elevator) : Bool :=
  decide (e.state ≠ ElevatorState.maintenance)

/-- `Elevator.get_distance(floor)`: absolute distance. -/
def Elevator.get_distance (e : Elevator) (floor : ℤ) : ℤ :=
  |e.current_floor - floor|

/-- `Elevator.is_moving_towards(floor, direction)`: an idle car always
qualifies; a car travelling in the requested direction qualifies when the
floor lies ahead on that trajectory. -/
def Elevator.is_moving_towards (e : Elevator) (floor : ℤ) (d : Direction) : Bool :=
  if e.direction = Direction.idle then true
  else if e.direction = d then
    if d = Direction.up then decide (e.current_floor < floor)
    else decide (e.current_floor > floor)
  else false

/-- The value the scheduler's loop computes per candidate: distance, less
the fixed bonus `100` when the car is heading toward the request. -/
def NearestCarScheduler.score (e : Elevator) (req : Request) : ℤ :=
  if e.is_moving_towards req.floor req.direction then e.get_distance req.floor - 100
  else e.get_distance req.floor

/-- The scheduler's selection loop.  The accumulator is `best_elevator`
paired with `min_distance`; the Python initial state (`None`,
`float('inf')`) is the `none` accumulator, replaced on the first
candidate because every finite score beats infinity.  The update uses a
strict `<`, so the earliest candidate achieving the minimum is kept. -/
def NearestCarScheduler.select_loop (req : Request) :
    List Elevator → Option (Elevator × ℤ) → Option Elevator
  | [], best => best.map Prod.fst
  | e :: rest, best =>
      let d := NearestCarScheduler.score e req
      match best with
      | none => NearestCarScheduler.select_loop req rest (some (e, d))
      | some (be, m) =>
          if d < m then NearestCarScheduler.select_loop req rest (some (e, d))
          else NearestCarScheduler.select_loop req rest (some (be, m))

/-- `NearestCarScheduler.select_elevator(elevators, request)`: filter to
available cars, return `None` when none remain, otherwise run the
minimum-score loop. -/
def NearestCarScheduler.select_elevator (elevators : List Elevator) (req : Request) :
    Option Elevator :=
  let available := elevators.filter Elevator.is_available
  if available = [] then none
  else NearestCarScheduler.select_loop req available none

/-- Replace the element at a position by the image under `f`; out-of-range
positions leave the list unchanged.  Models Python's in-place mutation of
one list element. -/
def modify_at : List Elevator → ℕ → (Elevator → Elevator) → List Elevator
  | [], _, _ => []
  | x :: xs, 0, f => f x :: xs
  | x :: xs, n + 1, f => x :: modify_at xs n f

/-- Python list-index semantics on a list of length `n`: a negative index
counts from the end; the result is in `[0, n)` exactly when the access
succeeds. -/
def pyindex (n : ℕ) (idx : ℤ) : ℤ := if idx < 0 then (n : ℤ) + idx else idx

/-- The `ElevatorController` class state: the fleet and the floor count. -/
structure ElevatorController where
  elevators : List Elevator
  num_floors : ℤ

/-- Field-wise decidable equality, as for `Elevator`. -/
instance : DecidableEq ElevatorController := fun a b =>
  decidable_of_iff (a.elevators = b.elevators ∧ a.num_floors = b.num_floors)
    (by cases a; cases b; simp)

/-- `ElevatorController.__init__(num_elevators, num_floors)`: cars with
ids `1, …, num_elevators`, all built by `Elevator.__init__`. -/
def ElevatorController.init (num_elevators : ℕ) (num_floors : ℤ) : ElevatorController :=
  { elevators := (List.range num_elevators).map fun i =>
      Elevator.init (Int.ofNat i + 1) num_floors
    num_floors := num_floors }

/-- `ElevatorController.request_elevator(floor, direction)`: ask the
scheduler for a car; on success that car gets `add_stop(floor)`, on
failure nothing changes.  The Python code mutates the selected object in
place; here the selected car is replaced by id — fleet ids are pairwise
distinct on every reachable controller (`CtrlInv`), so exactly one car is
touched. -/
def ElevatorController.request_elevator (c : ElevatorController) (floor : ℤ) (d : Direction) :
    ElevatorController :=
  match NearestCarScheduler.select_elevator c.elevators { floor := floor, direction := d } with
  | some chosen =>
      { c with elevators := c.elevators.map fun e =>
          if e.elevator_id = chosen.elevator_id then e.add_stop floor else e }
  | none => c

/-- `ElevatorController.destination_request(elevator_id, floor)`: the
source indexes `self.elevators[elevator_id - 1]` with no validation, so
Python list semantics apply — a negative index within `[-n, -1]` wraps to
the end of the list, anything further out raises `IndexError` (the `none`
result here); an in-range index gets `add_stop(floor)`. -/
def ElevatorController.destination_request (c : ElevatorController) (elevator_id floor : ℤ) :
    Option ElevatorController :=
  if 0 ≤ pyindex c.elevators.length (elevator_id - 1)
      ∧ pyindex c.elevators.length (elevator_id - 1) < (c.elevators.length : ℤ) then
    some { c with
      elevators := modify_at c.elevators
          (pyindex c.elevators.length (elevator_id - 1)).toNat fun e => e.add_stop floor }
  else none

/-- The body of `ElevatorController.step()`'s loop: a car is moved only
when it has a pending stop in either set. -/
def ElevatorController.tick_car (e : Elevator) : Elevator :=
  if e.up_stops ≠ ∅ ∨ e.down_stops ≠ ∅ then e.move else e

/-- `ElevatorController.step()`: one global tick over the fleet in list
order (the cars do not interact, so the order is immaterial to state). -/
def ElevatorController.step (c : ElevatorController) : ElevatorController :=
  { c with elevators := c.elevators.map ElevatorController.tick_car }

/-- Modelled from the spec: `IsSettled()` does not exist in the source —
its `run_simulation` loop checks that every car's direction is `IDLE`.
The spec (§4.3, §6) defines `IsSettled()` as: every car's direction is
`Idle` and both of its stop sets are empty. -/
def ElevatorController.is_settled (c : ElevatorController) : Bool :=
  c.elevators.all fun e =>
    decide (e.direction = Direction.idle ∧ e.up_stops = ∅ ∧ e.down_stops = ∅)

/-- The controller states reachable from fleet construction through the
public operations: hall calls, car calls (when they do not raise), and
global ticks. -/
inductive Reachable : ElevatorController → Prop
  | init (n : ℕ) (floors : ℤ) : Reachable (ElevatorController.init n floors)
  | hall (c : ElevatorController) (floor : ℤ) (d : Direction) :
      Reachable c → Reachable (c.request_elevator floor d)
  | car_call (c : ElevatorController) (elevator_id floor : ℤ) (c' : ElevatorController) :
      Reachable c → c.destination_request elevator_id floor = some c' → Reachable c'
  | step (c : ElevatorController) : Reachable c → Reachable c.step

/-- The largest pending floor of a stop set (junk value `0` on the empty
set; only ever used under a non-emptiness fact). -/
def fmax (s : Finset ℤ) : ℤ := s.max.unbot' 0

/-- The smallest pending floor of a stop set (junk value `0` on the empty
set). -/
def fmin (s : Finset ℤ) : ℤ := s.min.untop' 0

/-- Remaining distance a car travels before it runs out of pending stops,
following `Elevator.move`'s direction policy: when the up set is served
first (it is non-empty, and the down set is empty or the car is already
travelling up) the car climbs to its top pending stop and then descends
to its bottom one; otherwise it descends first. -/
def travel (e : Elevator) : ℤ :=
  if e.up_stops = ∅ ∧ e.down_stops = ∅ then 0
  else if e.up_stops ≠ ∅ ∧ (e.down_stops = ∅ ∨ e.direction = Direction.up) then
    (fmax e.up_stops - e.current_floor) +
      (if e.down_stops = ∅ then 0 else fmax e.up_stops - fmin e.down_stops)
  else
    (e.current_floor - fmin e.down_stops) +
      (if e.up_stops = ∅ then 0 else fmax e.up_stops - fmin e.down_stops)

/-- Tick potential of a car: remaining travel plus one unit per pending
stop (a served stop consumes a tick without moving).  Strictly decreases
on every effective tick. -/
def pot (e : Elevator) : ℤ := travel e + e.up_stops.card + e.down_stops.card

/-- The potential as a natural-number tick budget. -/
def mu (e : Elevator) : ℕ := (pot e).toNat

/-- Inductive invariant of a single reachable car.  Pending up-stops never
lie below the car (and sit exactly at it only when travelling up), dually
for down-stops; all stops are inside `[1, max_floor]`; maintenance is
never entered and the door-open state never survives a tick; an idle
direction implies the idle operating state; the floor never leaves
`[1, max_floor]` except for the initial floor 1 of a degenerate building. -/
structure CarInv (e : Elevator) : Prop where
  up_ge : ∀ u ∈ e.up_stops, e.current_floor ≤ u
  up_eq : ∀ u ∈ e.up_stops, u = e.current_floor → e.direction = Direction.up
  up_ub : ∀ u ∈ e.up_stops, u ≤ e.max_floor
  down_le : ∀ d ∈ e.down_stops, d ≤ e.current_floor
  down_eq : ∀ d ∈ e.down_stops, d = e.current_floor → e.direction = Direction.down
  down_lb : ∀ d ∈ e.down_stops, 1 ≤ d
  down_ub : ∀ d ∈ e.down_stops, d ≤ e.max_floor
  not_maint : e.state ≠ ElevatorState.maintenance
  not_door : e.state ≠ ElevatorState.door_open
  idle_state : e.direction = Direction.idle → e.state = ElevatorState.idle
  floor_lb : 1 ≤ e.current_floor
  floor_ub : e.current_floor ≤ e.max_floor ∨ e.current_floor = 1

/-- The id sequence `1, …, n` that fleet construction assigns. -/
def idList (n : ℕ) : List ℤ := (List.range n).map fun i => Int.ofNat i + 1

/-- Inductive invariant of a reachable controller: every car satisfies
`CarInv`, shares the fleet's floor count, and the fleet's ids are exactly
`1, …, n` in list order. -/
structure CtrlInv (c : ElevatorController) : Prop where
  cars : ∀ e ∈ c.elevators, CarInv e
  floors : ∀ e ∈ c.elevators, e.max_floor = c.num_floors
  ids : c.elevators.map Elevator.elevator_id = idList c.elevators.length

/-- §8's first concrete scenario: one car, ten floors, hall call at 5
going up, then car call to 10 (the hall call is assigned by the scheduler;
the car call lands by direct index, hence the `Option` default that the
theorems prove irrelevant). -/
def scen1 : ElevatorController :=
  (((ElevatorController.init 1 10).request_elevator 5 Direction.up).destination_request 1 10).getD
    (ElevatorController.init 1 10)

/-- Settlement counterexample fleet: one car, two floors, a single hall
call for floor 2. -/
def scen2 : ElevatorController :=
  (ElevatorController.init 1 2).request_elevator 2 Direction.up

/-- §8's second scenario, before the ticks: two cars, ten floors, car 1
sent to floor 8. -/
def scen8pre : ElevatorController :=
  ((ElevatorController.init 2 10).destination_request 1 8).getD (ElevatorController.init 2 10)

/-- §8's second scenario: after two ticks car 1 is at floor 3 moving up
toward 8 while car 2 idles at floor 1. -/
def scen8 : ElevatorController :=
  ElevatorController.step (ElevatorController.step scen8pre)

/-- A car that is idle with pending stops on both sides: the configuration
of the directional tie-break. -/
def ce6 : Elevator :=
  { elevator_id := 1, current_floor := 2, direction := Direction.idle,
    state := ElevatorState.idle, max_floor := 3, up_stops := {3}, down_stops := {1},
    capacity := 10, current_load := 0 }

/-- A car ascending toward floor 5 with floor 1 pending in the opposite
set: the no-reversal configuration. -/
def c7car : Elevator :=
  { elevator_id := 1, current_floor := 3, direction := Direction.up,
    state := ElevatorState.moving, max_floor := 5, up_stops := {5}, down_stops := {1},
    capacity := 10, current_load := 0 }

/-- The same car later: descending, standing at floor 1 with floor 1 due —
the tick that finally serves the opposite-set floor. -/
def c7down : Elevator :=
  { elevator_id := 1, current_floor := 1, direction := Direction.down,
    state := ElevatorState.moving, max_floor := 5, up_stops := ∅, down_stops := {1},
    capacity := 10, current_load := 0 }

/-! ## Basic facts about the embedded operations -/

theorem le_fmax {s : Finset ℤ} {x : ℤ} (hx : x ∈ s) : x ≤ fmax s := by
  have h := Finset.le_max hx
  unfold fmax
  cases hm : s.max with
  | bot => rw [hm] at h; exact absurd h (by simp)
  | coe m => rw [hm] at h; rw [WithBot.unbot'_coe]; exact_mod_cast h

theorem fmax_mem {s : Finset ℤ} (h : s.Nonempty) : fmax s ∈ s := by
  obtain ⟨a, ha⟩ := Finset.max_of_nonempty h
  unfold fmax
  rw [ha, WithBot.unbot'_coe]
  exact Finset.mem_of_max ha

theorem fmin_le {s : Finset ℤ} {x : ℤ} (hx : x ∈ s) : fmin s ≤ x := by
  have h := Finset.min_le hx
  unfold fmin
  cases hm : s.min with
  | top => rw [hm] at h; exact absurd h (by simp)
  | coe m => rw [hm] at h; rw [WithTop.untop'_coe]; exact_mod_cast h

theorem fmin_mem {s : Finset ℤ} (h : s.Nonempty) : fmin s ∈ s := by
  obtain ⟨a, ha⟩ := Finset.min_of_nonempty h
  unfold fmin
  rw [ha, WithTop.untop'_coe]
  exact Finset.mem_of_min ha

/-- `stop` flattened: one door cycle within the tick, both sets lose the
current floor, and the car ends in `idle`. -/
theorem stop_eq (e : Elevator) :
    e.stop = { e with state := ElevatorState.idle,
                      up_stops := e.up_stops.erase e.current_floor,
                      down_stops := e.down_stops.erase e.current_floor } := rfl

theorem should_stop_iff (e : Elevator) : e.should_stop = true ↔
    (e.direction = Direction.up ∧ e.current_floor ∈ e.up_stops)
    ∨ (e.direction = Direction.down ∧ e.current_floor ∈ e.down_stops) := by
  unfold Elevator.should_stop
  split_ifs with h1 h2
  · simp [h1]
  · simp [h1, h2]
  · simp [h1, h2]

theorem should_stop_false (e : Elevator) (h : e.should_stop = false) :
    ¬ (e.direction = Direction.up ∧ e.current_floor ∈ e.up_stops)
    ∧ ¬ (e.direction = Direction.down ∧ e.current_floor ∈ e.down_stops) := by
  constructor <;> intro hc
  · rw [(should_stop_iff e).mpr (Or.inl hc)] at h; cases h
  · rw [(should_stop_iff e).mpr (Or.inr hc)] at h; cases h

theorem move_of_should_stop (e : Elevator) (h1 : e.state ≠ ElevatorState.maintenance)
    (h2 : e.should_stop = true) : e.move = e.stop := by
  unfold Elevator.move
  rw [if_neg h1, if_pos h2]

theorem move_up_eq (e : Elevator) (h1 : e.state ≠ ElevatorState.maintenance)
    (h2 : e.should_stop = false)
    (h4 : e.up_stops ≠ ∅ ∧ (e.down_stops = ∅ ∨ e.direction = Direction.up)) :
    e.move = { e with direction := Direction.up, state := ElevatorState.moving,
                      current_floor := e.current_floor + 1 } := by
  unfold Elevator.move
  rw [if_neg h1, if_neg (by simp [h2]), if_neg (by intro hc; exact h4.1 hc.1), if_pos h4]

theorem move_down_eq (e : Elevator) (h1 : e.state ≠ ElevatorState.maintenance)
    (h2 : e.should_stop = false)
    (h4 : ¬ (e.up_stops ≠ ∅ ∧ (e.down_stops = ∅ ∨ e.direction = Direction.up)))
    (h5 : e.down_stops ≠ ∅) :
    e.move = { e with direction := Direction.down, state := ElevatorState.moving,
                      current_floor := e.current_floor - 1 } := by
  unfold Elevator.move
  rw [if_neg h1, if_neg (by simp [h2]), if_neg (by intro hc; exact h5 hc.2), if_neg h4,
    if_pos h5]

theorem move_idle_eq (e : Elevator) (h1 : e.state ≠ ElevatorState.maintenance)
    (h2 : e.should_stop = false) (h3 : e.up_stops = ∅ ∧ e.down_stops = ∅) :
    e.move = { e with direction := Direction.idle, state := ElevatorState.idle } := by
  unfold Elevator.move
  rw [if_neg h1, if_neg (by simp [h2]), if_pos h3]

theorem add_stop_id (e : Elevator) (f : ℤ) : (e.add_stop f).elevator_id = e.elevator_id := by
  unfold Elevator.add_stop; split_ifs <;> rfl

theorem add_stop_max (e : Elevator) (f : ℤ) : (e.add_stop f).max_floor = e.max_floor := by
  unfold Elevator.add_stop; split_ifs <;> rfl

theorem move_id (e : Elevator) : e.move.elevator_id = e.elevator_id := by
  unfold Elevator.move Elevator.stop Elevator.close_door; split_ifs <;> rfl

theorem move_max (e : Elevator) : e.move.max_floor = e.max_floor := by
  unfold Elevator.move Elevator.stop Elevator.close_door; split_ifs <;> rfl

theorem tick_id (e : Elevator) : (ElevatorController.tick_car e).elevator_id = e.elevator_id := by
  unfold ElevatorController.tick_car; split_ifs with h
  · exact move_id e
  · rfl

theorem tick_max (e : Elevator) : (ElevatorController.tick_car e).max_floor = e.max_floor := by
  unfold ElevatorController.tick_car; split_ifs with h
  · exact move_max e
  · rfl

/-! ## The car invariant and its preservation -/

theorem carInv_init (i mf : ℤ) : CarInv (Elevator.init i mf) := by
  constructor <;> simp [Elevator.init]

theorem carInv_add_stop (e : Elevator) (f : ℤ) (h : CarInv e) : CarInv (e.add_stop f) := by
  unfold Elevator.add_stop
  split_ifs with h1 h2 h3
  · exact h
  · push_neg at h1
    exact {
      up_ge := fun u hu => by
        rcases Finset.mem_insert.mp hu with rfl | hu2
        · exact le_of_lt h2
        · exact h.up_ge u hu2
      up_eq := fun u hu heq => by
        rcases Finset.mem_insert.mp hu with rfl | hu2
        · exact absurd heq (by dsimp only; omega)
        · exact h.up_eq u hu2 heq
      up_ub := fun u hu => by
        rcases Finset.mem_insert.mp hu with rfl | hu2
        · exact h1.2
        · exact h.up_ub u hu2
      down_le := h.down_le
      down_eq := h.down_eq
      down_lb := h.down_lb
      down_ub := h.down_ub
      not_maint := h.not_maint
      not_door := h.not_door
      idle_state := h.idle_state
      floor_lb := h.floor_lb
      floor_ub := h.floor_ub }
  · push_neg at h1
    exact {
      up_ge := h.up_ge
      up_eq := h.up_eq
      up_ub := h.up_ub
      down_le := fun d hd => by
        rcases Finset.mem_insert.mp hd with rfl | hd2
        · exact le_of_lt h3
        · exact h.down_le d hd2
      down_eq := fun d hd heq => by
        rcases Finset.mem_insert.mp hd with rfl | hd2
        · exact absurd heq (by dsimp only; omega)
        · exact h.down_eq d hd2 heq
      down_lb := fun d hd => by
        rcases Finset.mem_insert.mp hd with rfl | hd2
        · exact h1.1
        · exact h.down_lb d hd2
      down_ub := fun d hd => by
        rcases Finset.mem_insert.mp hd with rfl | hd2
        · exact h1.2
        · exact h.down_ub d hd2
      not_maint := h.not_maint
      not_door := h.not_door
      idle_state := h.idle_state
      floor_lb := h.floor_lb
      floor_ub := h.floor_ub }
  · exact h

theorem carInv_move (e : Elevator) (h : CarInv e) : CarInv e.move := by
  by_cases hss : e.should_stop = true
  · rw [move_of_should_stop e h.not_maint hss, stop_eq]
    exact {
      up_ge := fun u hu => h.up_ge u (Finset.mem_of_mem_erase hu)
      up_eq := fun u hu heq => absurd heq (Finset.mem_erase.mp hu).1
      up_ub := fun u hu => h.up_ub u (Finset.mem_of_mem_erase hu)
      down_le := fun d hd => h.down_le d (Finset.mem_of_mem_erase hd)
      down_eq := fun d hd heq => absurd heq (Finset.mem_erase.mp hd).1
      down_lb := fun d hd => h.down_lb d (Finset.mem_of_mem_erase hd)
      down_ub := fun d hd => h.down_ub d (Finset.mem_of_mem_erase hd)
      not_maint := by simp
      not_door := by simp
      idle_state := fun _ => rfl
      floor_lb := h.floor_lb
      floor_ub := h.floor_ub }
  · have hss' : e.should_stop = false := Bool.eq_false_iff.mpr hss
    by_cases h3 : e.up_stops = ∅ ∧ e.down_stops = ∅
    · rw [move_idle_eq e h.not_maint hss' h3]
      exact {
        up_ge := h.up_ge
        up_eq := fun u hu _ => absurd hu (by rw [h3.1]; exact Finset.not_mem_empty u)
        up_ub := h.up_ub
        down_le := h.down_le
        down_eq := fun d hd _ => absurd hd (by rw [h3.2]; exact Finset.not_mem_empty d)
        down_lb := h.down_lb
        down_ub := h.down_ub
        not_maint := by simp
        not_door := by simp
        idle_state := fun _ => rfl
        floor_lb := h.floor_lb
        floor_ub := h.floor_ub }
    · by_cases h4 : e.up_stops ≠ ∅ ∧ (e.down_stops = ∅ ∨ e.direction = Direction.up)
      · rw [move_up_eq e h.not_maint hss' h4]
        have hmem : e.current_floor ∉ e.up_stops := by
          intro hc
          exact (should_stop_false e hss').1 ⟨h.up_eq _ hc rfl, hc⟩
        exact {
          up_ge := fun u hu => by
            dsimp only
            have h1 := h.up_ge u hu
            have hne : u ≠ e.current_floor := fun hh => hmem (hh ▸ hu)
            omega
          up_eq := fun _ _ _ => rfl
          up_ub := h.up_ub
          down_le := fun d hd => by dsimp only; have := h.down_le d hd; omega
          down_eq := fun d hd heq =>
            absurd heq (by dsimp only; have := h.down_le d hd; omega)
          down_lb := h.down_lb
          down_ub := h.down_ub
          not_maint := by simp
          not_door := by simp
          idle_state := fun hc => Direction.noConfusion hc
          floor_lb := by dsimp only; have := h.floor_lb; omega
          floor_ub := by
            dsimp only
            left
            obtain ⟨u, hu⟩ := Finset.nonempty_iff_ne_empty.mpr h4.1
            have h1 := h.up_ge u hu
            have h2 := h.up_ub u hu
            have hne : u ≠ e.current_floor := fun hh => hmem (hh ▸ hu)
            omega }
      · have h5 : e.down_stops ≠ ∅ := by
          intro hD
          rcases not_and_or.mp h4 with hU | hOr
          · push_neg at hU
            exact h3 ⟨hU, hD⟩
          · exact hOr (Or.inl hD)
        rw [move_down_eq e h.not_maint hss' h4 h5]
        have hmem : e.current_floor ∉ e.down_stops := by
          intro hc
          exact (should_stop_false e hss').2 ⟨h.down_eq _ hc rfl, hc⟩
        exact {
          up_ge := fun u hu => by dsimp only; have := h.up_ge u hu; omega
          up_eq := fun u hu heq =>
            absurd heq (by dsimp only; have := h.up_ge u hu; omega)
          up_ub := h.up_ub
          down_le := fun d hd => by
            dsimp only
            have h1 := h.down_le d hd
            have hne : d ≠ e.current_floor := fun hh => hmem (hh ▸ hd)
            omega
          down_eq := fun _ _ _ => rfl
          down_lb := h.down_lb
          down_ub := h.down_ub
          not_maint := by simp
          not_door := by simp
          idle_state := fun hc => Direction.noConfusion hc
          floor_lb := by
            dsimp only
            obtain ⟨dd, hdd⟩ := Finset.nonempty_iff_ne_empty.mpr h5
            have h1 := h.down_le dd hdd
            have h2 := h.down_lb dd hdd
            have hne : dd ≠ e.current_floor := fun hh => hmem (hh ▸ hdd)
            omega
          floor_ub := by
            dsimp only
            left
            obtain ⟨dd, hdd⟩ := Finset.nonempty_iff_ne_empty.mpr h5
            have h1 := h.down_le dd hdd
            have h2 := h.down_lb dd hdd
            have hne : dd ≠ e.current_floor := fun hh => hmem (hh ▸ hdd)
            rcases h.floor_ub with hh | hh <;> omega }

theorem carInv_tick (e : Elevator) (h : CarInv e) : CarInv (ElevatorController.tick_car e) := by
  unfold ElevatorController.tick_car
  split_ifs with hc
  · exact carInv_move e h
  · exact h

theorem carInv_disjoint (e : Elevator) (h : CarInv e) :
    ∀ x : ℤ, x ∈ e.up_stops → x ∈ e.down_stops → False := by
  intro x hu hd
  have hx : x = e.current_floor := le_antisymm (h.down_le x hd) (h.up_ge x hu)
  have hup := h.up_eq x hu hx
  have hdn := h.down_eq x hd hx
  rw [hup] at hdn
  exact Direction.noConfusion hdn

/-! ## List plumbing for the controller invariant -/

theorem modify_at_length (l : List Elevator) (i : ℕ) (f : Elevator → Elevator) :
    (modify_at l i f).length = l.length := by
  induction l generalizing i with
  | nil => rfl
  | cons x xs ih =>
      cases i with
      | zero => rfl
      | succ n => simp [modify_at, ih]

theorem modify_at_map (l : List Elevator) (i : ℕ) (f : Elevator → Elevator)
    (g : Elevator → ℤ) (h : ∀ a ∈ l, g (f a) = g a) :
    (modify_at l i f).map g = l.map g := by
  induction l generalizing i with
  | nil => rfl
  | cons x xs ih =>
      cases i with
      | zero => simp [modify_at, h x (List.mem_cons_self x xs)]
      | succ n =>
          simp only [modify_at, List.map_cons]
          rw [ih n fun a ha => h a (List.mem_cons_of_mem x ha)]

theorem modify_at_forall (P : Elevator → Prop) (l : List Elevator) (i : ℕ)
    (f : Elevator → Elevator) (hl : ∀ y ∈ l, P y) (hf : ∀ y ∈ l, P y → P (f y)) :
    ∀ x ∈ modify_at l i f, P x := by
  induction l generalizing i with
  | nil => intro x hx; cases hx
  | cons y ys ih =>
      cases i with
      | zero =>
          intro x hx
          rcases List.mem_cons.mp hx with rfl | hx2
          · exact hf y (List.mem_cons_self y ys) (hl y (List.mem_cons_self y ys))
          · exact hl x (List.mem_cons_of_mem y hx2)
      | succ n =>
          intro x hx
          rcases List.mem_cons.mp hx with rfl | hx2
          · exact hl x (List.mem_cons_self x ys)
          · exact ih n (fun z hz => hl z (List.mem_cons_of_mem y hz))
              (fun z hz => hf z (List.mem_cons_of_mem y hz)) x hx2

/-! ## The controller invariant and its preservation -/

theorem map_map_id (f : Elevator → Elevator) (l : List Elevator)
    (hid : ∀ e ∈ l, (f e).elevator_id = e.elevator_id) :
    (l.map f).map Elevator.elevator_id = l.map Elevator.elevator_id := by
  induction l with
  | nil => rfl
  | cons x xs ih =>
      simp only [List.map_cons]
      rw [hid x (List.mem_cons_self x xs),
        ih fun e he => hid e (List.mem_cons_of_mem x he)]

theorem ctrlInv_map (c : ElevatorController) (f : Elevator → Elevator)
    (hid : ∀ e ∈ c.elevators, (f e).elevator_id = e.elevator_id)
    (hmax : ∀ e ∈ c.elevators, (f e).max_floor = e.max_floor)
    (hinv : ∀ e ∈ c.elevators, CarInv e → CarInv (f e))
    (h : CtrlInv c) :
    CtrlInv { c with elevators := c.elevators.map f } := by
  constructor
  · intro e he
    dsimp only at he
    obtain ⟨y, hy, rfl⟩ := List.mem_map.mp he
    exact hinv y hy (h.cars y hy)
  · intro e he
    dsimp only at he ⊢
    obtain ⟨y, hy, rfl⟩ := List.mem_map.mp he
    rw [hmax y hy]
    exact h.floors y hy
  · dsimp only
    rw [map_map_id f c.elevators hid, List.length_map]
    exact h.ids

theorem ctrlInv_init (n : ℕ) (nf : ℤ) : CtrlInv (ElevatorController.init n nf) := by
  constructor
  · intro e he
    obtain ⟨i, hi, rfl⟩ := List.mem_map.mp he
    exact carInv_init _ _
  · intro e he
    obtain ⟨i, hi, rfl⟩ := List.mem_map.mp he
    rfl
  · dsimp only [ElevatorController.init, idList]
    rw [List.map_map, List.length_map, List.length_range]
    exact List.map_congr_left fun a _ => rfl

theorem ctrlInv_request (c : ElevatorController) (h : CtrlInv c) (floor : ℤ) (d : Direction) :
    CtrlInv (c.request_elevator floor d) := by
  unfold ElevatorController.request_elevator
  cases hsel : NearestCarScheduler.select_elevator c.elevators { floor := floor, direction := d } with
  | none => exact h
  | some chosen =>
      refine ctrlInv_map c _ ?_ ?_ ?_ h
      · intro e he
        by_cases hc : e.elevator_id = chosen.elevator_id
        · rw [if_pos hc]; exact add_stop_id e floor
        · rw [if_neg hc]
      · intro e he
        by_cases hc : e.elevator_id = chosen.elevator_id
        · rw [if_pos hc]; exact add_stop_max e floor
        · rw [if_neg hc]
      · intro e he hci
        by_cases hc : e.elevator_id = chosen.elevator_id
        · rw [if_pos hc]; exact carInv_add_stop e floor hci
        · rw [if_neg hc]; exact hci

theorem ctrlInv_dest (c c' : ElevatorController) (h : CtrlInv c) (i f : ℤ)
    (heq : c.destination_request i f = some c') : CtrlInv c' := by
  unfold ElevatorController.destination_request at heq
  split_ifs at heq with hc
  · injection heq with heq'
    subst heq'
    constructor
    · intro e he
      dsimp only at he
      exact modify_at_forall CarInv _ _ _ h.cars
        (fun y _ hcy => carInv_add_stop y f hcy) e he
    · intro e he
      dsimp only at he ⊢
      exact modify_at_forall (fun x => x.max_floor = c.num_floors) _ _ _ h.floors
        (fun y _ hp => by dsimp only; rw [add_stop_max]; exact hp) e he
    · dsimp only
      rw [modify_at_map _ _ _ _ fun a _ => add_stop_id a f, modify_at_length]
      exact h.ids

theorem ctrlInv_step (c : ElevatorController) (h : CtrlInv c) : CtrlInv c.step :=
  ctrlInv_map c _ (fun e _ => tick_id e) (fun e _ => tick_max e)
    (fun e _ hci => carInv_tick e hci) h

theorem reachable_ctrlInv (c : ElevatorController) (h : Reachable c) : CtrlInv c := by
  induction h with
  | init n floors => exact ctrlInv_init n floors
  | hall c floor d _ ih => exact ctrlInv_request c ih floor d
  | car_call c i f c' _ heq ih => exact ctrlInv_dest c c' ih i f heq
  | step c _ ih => exact ctrlInv_step c ih

/-! ## Reachability of the concrete scenarios -/

theorem scen1_reachable : Reachable scen1 := by
  refine Reachable.car_call ((ElevatorController.init 1 10).request_elevator 5 Direction.up)
    1 10 scen1 ?_ ?_
  · exact Reachable.hall _ 5 Direction.up (Reachable.init 1 10)
  · decide

theorem scen2_reachable : Reachable scen2 :=
  Reachable.hall _ 2 Direction.up (Reachable.init 1 2)

theorem scen8_reachable : Reachable scen8 := by
  refine Reachable.step _ (Reachable.step _ ?_)
  exact Reachable.car_call (ElevatorController.init 2 10) 1 8 scen8pre
    (Reachable.init 2 10) (by decide)

/-! ## Claim C1 — the §8 single-car scenario -/

/-- C1, counterexample: in the concrete scenario (one car, ten floors,
hall call at 5 up, car call to 10) the car after exactly 4 `Step()` calls
is *not* in the `DoorOpen` state (it is `Moving`; `stop` closes the door
within the very tick it opens it), and `IsSettled()` is still false after
the 10th tick — both against the claim. -/
theorem C1_counterexample :
    ((ElevatorController.step)^[4] scen1).elevators.map Elevator.state
      ≠ [ElevatorState.door_open]
    ∧ ((ElevatorController.step)^[10] scen1).is_settled = false := by
  exact ⟨by decide, by decide⟩

/-- C1, amended: in the §8 scenario the car is at floor 5 still `Moving`
after 4 ticks; the 5th tick serves floor 5 (door opened and closed inside
the tick, ending in `Idle` with only floor 10 pending); after 10 ticks the
car is at floor 10 `Moving`; the 11th tick serves floor 10; from then on
`Step()` changes nothing, and since the direction stays `Up` forever,
`IsSettled()` never becomes true. -/
theorem C1_amended :
    (((ElevatorController.init 1 10).request_elevator 5 Direction.up).destination_request 1 10
      = some scen1)
    ∧ ((ElevatorController.step)^[4] scen1).elevators.map
        (fun e => (e.current_floor, e.state)) = [(5, ElevatorState.moving)]
    ∧ ((ElevatorController.step)^[5] scen1).elevators.map
        (fun e => (e.current_floor, e.state, e.direction))
        = [(5, ElevatorState.idle, Direction.up)]
    ∧ ((ElevatorController.step)^[5] scen1).elevators.map Elevator.up_stops = [{10}]
    ∧ ((ElevatorController.step)^[10] scen1).elevators.map
        (fun e => (e.current_floor, e.state)) = [(10, ElevatorState.moving)]
    ∧ ((ElevatorController.step)^[11] scen1).elevators.map
        (fun e => (e.current_floor, e.state, e.direction, e.up_stops, e.down_stops))
        = [(10, ElevatorState.idle, Direction.up, ∅, ∅)]
    ∧ ElevatorController.step ((ElevatorController.step)^[11] scen1)
        = (ElevatorController.step)^[11] scen1
    ∧ ((ElevatorController.step)^[11] scen1).is_settled = false := by
  exact ⟨by decide, by decide, by decide, by decide, by decide, by decide, by decide, by decide⟩

/-! ## Claim C3 — the direction/stop-set equivalence -/

/-- C3, counterexample: one car, ten floors, a car call to 5.  The car's
direction is `Idle` while its up-stop set is non-empty, so the claimed
equivalence `direction == Idle ⇔ stop sets empty ∧ state ∈ {Idle,
OutOfService}` fails on this reachable state. -/
theorem C3_counterexample :
    ((ElevatorController.init 1 10).destination_request 1 5).map
      (fun c => c.elevators.all fun e => decide
        (e.direction = Direction.idle ↔ (e.up_stops = ∅ ∧ e.down_stops = ∅
          ∧ (e.state = ElevatorState.idle ∨ e.state = ElevatorState.maintenance))))
      = some false := by decide

/-- C3, amended: on every reachable controller state, a car with
direction `Idle` has operating state `Idle`.  (Both directions of the
original equivalence fail: a freshly requested car keeps direction `Idle`
with a non-empty stop set, and a car that has served its last stop keeps
its travel direction with empty stop sets and state `Idle`.) -/
theorem C3_amended (c : ElevatorController) (h : Reachable c) :
    ∀ e ∈ c.elevators, e.direction = Direction.idle → e.state = ElevatorState.idle :=
  fun e he hd => ((reachable_ctrlInv c h).cars e he).idle_state hd

/-- C3, witness: the amended statement at the one car of a fresh fleet,
which indeed has direction `Idle`. -/
theorem C3_witness : (Elevator.init 1 10).state = ElevatorState.idle :=
  C3_amended (ElevatorController.init 1 10) (Reachable.init 1 10)
    (Elevator.init 1 10) (by decide) (by decide)

/-! ## Claim C4 — disjointness of the stop sets -/

/-- C4: on every controller state reachable through hall calls, car calls
and ticks, no floor is pending in both stop sets of the same car:
`upStops ∩ downStops = ∅`. -/
theorem C4_disjoint (c : ElevatorController) (h : Reachable c) :
    ∀ e ∈ c.elevators, e.up_stops ∩ e.down_stops = ∅ := by
  intro e he
  rw [Finset.eq_empty_iff_forall_not_mem]
  intro x hx
  exact carInv_disjoint e ((reachable_ctrlInv c h).cars e he) x
    (Finset.mem_inter.mp hx).1 (Finset.mem_inter.mp hx).2

/-- C4, witness: disjointness at the car of the §8 scenario state, whose
up-stop set is non-empty. -/
theorem C4_witness :
    (scen1.elevators.getD 0 (Elevator.init 1 10)).up_stops
      ∩ (scen1.elevators.getD 0 (Elevator.init 1 10)).down_stops = ∅ :=
  C4_disjoint scen1 scen1_reachable (scen1.elevators.getD 0 (Elevator.init 1 10)) (by decide)

/-! ## Claim C5 — `AddStop` at the current floor -/

/-- C5, counterexample: a fresh idle car at floor 1 receives
`AddStop(1)`; the call leaves the car completely unchanged — no stop is
recorded and no door-open cycle happens (the state never becomes
`DoorOpen`), against the claimed immediate-stop treatment. -/
theorem C5_counterexample :
    (Elevator.init 1 10).add_stop 1 = Elevator.init 1 10
    ∧ ((Elevator.init 1 10).add_stop 1).state ≠ ElevatorState.door_open := by
  exact ⟨by decide, by decide⟩

/-- C5, amended: for every car, `AddStop(floor)` with
`floor == currentFloor` is a no-op — whatever the operating state, the
call returns the car unchanged (both range tests pass it by and neither
insertion branch applies). -/
theorem C5_amended (e : Elevator) (floor : ℤ) (h : floor = e.current_floor) :
    e.add_stop floor = e := by
  unfold Elevator.add_stop
  split_ifs with h1 h2 h3
  · rfl
  · exact absurd h2 (by omega)
  · exact absurd h3 (by omega)
  · rfl

/-- C5, witness: the amended no-op at the fresh car and its own floor. -/
theorem C5_witness : (Elevator.init 2 10).add_stop 1 = Elevator.init 2 10 :=
  C5_amended (Elevator.init 2 10) 1 (by decide)

/-! ## Claim C6 — the idle-car tie-break -/

/-- C6, counterexample: a car idle at floor 2 with up-stop 3 and down-stop
1 pending moves *down* on the next tick (to floor 1), not up — the
up-branch of `move` requires the down set to be empty or the direction to
already be `Up`. -/
theorem C6_counterexample :
    (ElevatorController.tick_car ce6).direction ≠ Direction.up
    ∧ (ElevatorController.tick_car ce6).current_floor ≠ ce6.current_floor + 1
    ∧ (ElevatorController.tick_car ce6).direction = Direction.down
    ∧ (ElevatorController.tick_car ce6).current_floor = ce6.current_floor - 1 := by
  exact ⟨by decide, by decide, by decide, by decide⟩

/-- C6, amended: a non-maintenance car with direction `Idle` and both stop
sets non-empty moves *down* on the next tick: direction becomes `Down`,
the state `Moving`, and the floor decreases by one — the tie-break
prefers `Down` over `Up`. -/
theorem C6_amended (e : Elevator) (h1 : e.direction = Direction.idle)
    (h2 : e.state ≠ ElevatorState.maintenance) (h3 : e.up_stops ≠ ∅)
    (h4 : e.down_stops ≠ ∅) :
    ElevatorController.tick_car e
      = { e with direction := Direction.down, state := ElevatorState.moving,
                 current_floor := e.current_floor - 1 } := by
  have htick : ElevatorController.tick_car e = e.move := by
    unfold ElevatorController.tick_car
    rw [if_pos (Or.inl h3)]
  have n1 : ¬ (e.direction = Direction.up ∧ e.current_floor ∈ e.up_stops) := by
    intro hc
    rw [h1] at hc
    exact Direction.noConfusion hc.1
  have n2 : ¬ (e.direction = Direction.down ∧ e.current_floor ∈ e.down_stops) := by
    intro hc
    rw [h1] at hc
    exact Direction.noConfusion hc.1
  have hss : e.should_stop = false := by
    unfold Elevator.should_stop
    rw [if_neg n1, if_neg n2]
  rw [htick]
  refine move_down_eq e h2 hss ?_ h4
  intro hc
  rcases hc.2 with hD | hU
  · exact h4 hD
  · rw [h1] at hU
    exact Direction.noConfusion hU

/-- C6, witness: the amended down-move at the concrete tie-break car. -/
theorem C6_witness :
    ElevatorController.tick_car ce6
      = { ce6 with direction := Direction.down, state := ElevatorState.moving,
                   current_floor := ce6.current_floor - 1 } :=
  C6_amended ce6 (by decide) (by decide) (by decide) (by decide)

/-! ## Claim C7 — no reversal mid-run -/

theorem move_sets_unchanged (e : Elevator)
    (h : e.state = ElevatorState.maintenance ∨ e.should_stop = false) :
    e.move.up_stops = e.up_stops ∧ e.move.down_stops = e.down_stops := by
  by_cases hm : e.state = ElevatorState.maintenance
  · unfold Elevator.move
    rw [if_pos hm]
    exact ⟨rfl, rfl⟩
  · have hss : e.should_stop = false := by
      rcases h with hmm | hss
      · exact absurd hmm hm
      · exact hss
    unfold Elevator.move
    rw [if_neg hm, if_neg (by simp [hss])]
    split_ifs <;> exact ⟨rfl, rfl⟩

/-- C7: a floor pending only in the down set is never served while the car
still travels up — (a) while the direction is `Up` the floor survives the
tick in `downStops` (and never enters `upStops`); (b) whenever a tick
does remove such a floor from `downStops`, the car's direction at that
tick is `Down` and it is standing exactly at that floor. -/
theorem C7_no_reversal :
    (∀ (e : Elevator) (F : ℤ), e.direction = Direction.up → F ∈ e.down_stops →
        F ∉ e.up_stops → F ∈ e.move.down_stops ∧ F ∉ e.move.up_stops)
    ∧ (∀ (e : Elevator) (F : ℤ), F ∈ e.down_stops → F ∉ e.up_stops →
        F ∉ e.move.down_stops → e.direction = Direction.down ∧ e.current_floor = F) := by
  constructor
  · intro e F hdir hFD hFU
    by_cases hm : e.state = ElevatorState.maintenance
    · obtain ⟨hu, hd⟩ := move_sets_unchanged e (Or.inl hm)
      rw [hu, hd]
      exact ⟨hFD, hFU⟩
    by_cases hss : e.should_stop = true
    · rw [move_of_should_stop e hm hss, stop_eq]
      dsimp only
      have hcur : e.current_floor ∈ e.up_stops := by
        rcases (should_stop_iff e).mp hss with ⟨_, hmem⟩ | ⟨hd2, _⟩
        · exact hmem
        · rw [hdir] at hd2
          exact Direction.noConfusion hd2
      have hne : F ≠ e.current_floor := fun hcontra => hFU (hcontra ▸ hcur)
      exact ⟨Finset.mem_erase.mpr ⟨hne, hFD⟩,
        fun hc => hFU (Finset.mem_of_mem_erase hc)⟩
    · obtain ⟨hu, hd⟩ := move_sets_unchanged e (Or.inr (Bool.eq_false_iff.mpr hss))
      rw [hu, hd]
      exact ⟨hFD, hFU⟩
  · intro e F hFD hFU hgone
    by_cases hm : e.state = ElevatorState.maintenance
    · obtain ⟨_, hd⟩ := move_sets_unchanged e (Or.inl hm)
      rw [hd] at hgone
      exact absurd hFD hgone
    by_cases hss : e.should_stop = true
    · rw [move_of_should_stop e hm hss, stop_eq] at hgone
      dsimp only at hgone
      have hF : F = e.current_floor := by
        by_contra hne
        exact hgone (Finset.mem_erase.mpr ⟨hne, hFD⟩)
      rcases (should_stop_iff e).mp hss with ⟨_, hmem⟩ | ⟨hd2, _⟩
      · exact absurd (hF ▸ hmem) hFU
      · exact ⟨hd2, hF.symm⟩
    · obtain ⟨_, hd⟩ := move_sets_unchanged e (Or.inr (Bool.eq_false_iff.mpr hss))
      rw [hd] at hgone
      exact absurd hFD hgone

/-- C7, witness: both parts at the concrete ascending car (floor 3, going
up to 5, floor 1 pending below). -/
theorem C7_witness :
    (1 ∈ c7car.move.down_stops ∧ 1 ∉ c7car.move.up_stops)
    ∧ (c7down.direction = Direction.down ∧ c7down.current_floor = 1) :=
  ⟨C7_no_reversal.1 c7car 1 (by decide) (by decide) (by decide),
    C7_no_reversal.2 c7down 1 (by decide) (by decide) (by decide)⟩

/-! ## Claim C10 — maintenance is unreachable -/

theorem select_loop_isSome (req : Request) :
    ∀ (l : List Elevator) (b : Elevator × ℤ),
      (NearestCarScheduler.select_loop req l (some b)).isSome = true := by
  intro l
  induction l with
  | nil => intro b; rfl
  | cons e rest ih =>
      intro b
      obtain ⟨be, m⟩ := b
      simp only [NearestCarScheduler.select_loop]
      split_ifs <;> exact ih _

theorem filter_eq_self_of_all (l : List Elevator)
    (h : ∀ e ∈ l, e.is_available = true) : l.filter Elevator.is_available = l := by
  induction l with
  | nil => rfl
  | cons e rest ih =>
      simp only [List.filter_cons, h e (List.mem_cons_self e rest), if_pos]
      rw [ih fun x hx => h x (List.mem_cons_of_mem e hx)]

/-- C10: no reachable controller state has a car in `MAINTENANCE` (nothing
in the code ever enters it), hence `IsAvailable()` holds for every car,
and on a non-empty fleet `SelectCar` always returns a car — the
no-car-available branch of `RequestHallCall` is unreachable. -/
theorem C10_no_maintenance (c : ElevatorController) (h : Reachable c) :
    (∀ e ∈ c.elevators, e.state ≠ ElevatorState.maintenance ∧ e.is_available = true)
    ∧ (c.elevators ≠ [] → ∀ (floor : ℤ) (d : Direction),
        (NearestCarScheduler.select_elevator c.elevators
          { floor := floor, direction := d }).isSome = true) := by
  have havail : ∀ e ∈ c.elevators, e.is_available = true := by
    intro e he
    have hm := ((reachable_ctrlInv c h).cars e he).not_maint
    unfold Elevator.is_available
    exact decide_eq_true hm
  constructor
  · intro e he
    exact ⟨((reachable_ctrlInv c h).cars e he).not_maint, havail e he⟩
  · intro hne floor d
    unfold NearestCarScheduler.select_elevator
    rw [filter_eq_self_of_all c.elevators havail]
    cases hl : c.elevators with
    | nil => exact absurd hl hne
    | cons a rest =>
        rw [if_neg (by simp)]
        simp only [NearestCarScheduler.select_loop]
        exact select_loop_isSome _ rest _

/-- C10, witness: at the fresh three-car fleet, every car is available and
a hall call for floor 5 going up finds a car. -/
theorem C10_witness :
    (∀ e ∈ (ElevatorController.init 3 10).elevators,
      e.state ≠ ElevatorState.maintenance ∧ e.is_available = true)
    ∧ ((ElevatorController.init 3 10).elevators ≠ [] → ∀ (floor : ℤ) (d : Direction),
        (NearestCarScheduler.select_elevator (ElevatorController.init 3 10).elevators
          { floor := floor, direction := d }).isSome = true) :=
  C10_no_maintenance (ElevatorController.init 3 10) (Reachable.init 3 10)

/-! ## Claim C8 — the scheduler picks the minimum-score car -/

theorem select_loop_spec (req : Request) :
    ∀ (l : List Elevator) (b : Elevator),
      ∃ r, NearestCarScheduler.select_loop req l
            (some (b, NearestCarScheduler.score b req)) = some r
        ∧ (r = b ∨ (r ∈ l ∧ NearestCarScheduler.score r req < NearestCarScheduler.score b req))
        ∧ NearestCarScheduler.score r req ≤ NearestCarScheduler.score b req
        ∧ (∀ x ∈ l, NearestCarScheduler.score r req ≤ NearestCarScheduler.score x req)
        ∧ ((∀ x ∈ l, b.elevator_id < x.elevator_id) →
            List.Pairwise (fun a c => a.elevator_id < c.elevator_id) l →
            ∀ x, (x = b ∨ x ∈ l) →
              NearestCarScheduler.score x req = NearestCarScheduler.score r req →
              r.elevator_id ≤ x.elevator_id) := by
  intro l
  induction l with
  | nil =>
      intro b
      refine ⟨b, rfl, Or.inl rfl, le_refl _, ?_, ?_⟩
      · intro x hx
        exact absurd hx (List.not_mem_nil x)
      · intro _ _ x hx hsc
        rcases hx with rfl | hx2
        · exact le_refl _
        · exact absurd hx2 (List.not_mem_nil x)
  | cons y rest ih =>
      intro b
      simp only [NearestCarScheduler.select_loop]
      by_cases hlt : NearestCarScheduler.score y req < NearestCarScheduler.score b req
      · rw [if_pos hlt]
        obtain ⟨r, hr, hcase, hle, hmin, hid⟩ := ih y
        refine ⟨r, hr, ?_, ?_, ?_, ?_⟩
        · rcases hcase with rfl | ⟨hmem, hlt2⟩
          · exact Or.inr ⟨List.mem_cons_self _ _, hlt⟩
          · exact Or.inr ⟨List.mem_cons_of_mem y hmem, lt_trans hlt2 hlt⟩
        · exact le_of_lt (lt_of_le_of_lt hle hlt)
        · intro x hx
          rcases List.mem_cons.mp hx with rfl | hx2
          · exact hle
          · exact hmin x hx2
        · intro hb hpw x hx hsc
          have hyrest : ∀ z ∈ rest, y.elevator_id < z.elevator_id :=
            fun z hz => (List.pairwise_cons.mp hpw).1 z hz
          have hpwrest := (List.pairwise_cons.mp hpw).2
          rcases hx with rfl | hx2
          · exact absurd hsc (by omega)
          · refine hid hyrest hpwrest x ?_ hsc
            rcases List.mem_cons.mp hx2 with rfl | hx3
            · exact Or.inl rfl
            · exact Or.inr hx3
      · rw [if_neg hlt]
        obtain ⟨r, hr, hcase, hle, hmin, hid⟩ := ih b
        push_neg at hlt
        refine ⟨r, hr, ?_, hle, ?_, ?_⟩
        · rcases hcase with rfl | ⟨hmem, hlt2⟩
          · exact Or.inl rfl
          · exact Or.inr ⟨List.mem_cons_of_mem y hmem, hlt2⟩
        · intro x hx
          rcases List.mem_cons.mp hx with rfl | hx2
          · exact le_trans hle hlt
          · exact hmin x hx2
        · intro hb hpw x hx hsc
          have hby : b.elevator_id < y.elevator_id := hb y (List.mem_cons_self y rest)
          have hbrest : ∀ z ∈ rest, b.elevator_id < z.elevator_id :=
            fun z hz => hb z (List.mem_cons_of_mem y hz)
          have hpwrest := (List.pairwise_cons.mp hpw).2
          rcases hx with rfl | hx2
          · exact hid hbrest hpwrest x (Or.inl rfl) hsc
          · rcases List.mem_cons.mp hx2 with rfl | hx3
            · rcases hcase with rfl | ⟨hmem, hlt2⟩
              · exact le_of_lt hby
              · exact absurd hsc (by omega)
            · exact hid hbrest hpwrest x (Or.inr hx3) hsc

/-- C8: on every reachable non-empty fleet, `SelectCar` returns a car of
the fleet whose score (distance less the fixed 100 bonus when heading
toward the request) is minimal among all cars, and which has the lowest
id among the cars achieving that score. -/
theorem C8_select_min (c : ElevatorController) (h : Reachable c) (hne : c.elevators ≠ [])
    (floor : ℤ) (d : Direction) :
    ∃ best, NearestCarScheduler.select_elevator c.elevators { floor := floor, direction := d }
        = some best
      ∧ best ∈ c.elevators
      ∧ (∀ e ∈ c.elevators,
          NearestCarScheduler.score best { floor := floor, direction := d }
            ≤ NearestCarScheduler.score e { floor := floor, direction := d })
      ∧ (∀ e ∈ c.elevators,
          NearestCarScheduler.score e { floor := floor, direction := d }
            = NearestCarScheduler.score best { floor := floor, direction := d }
          → best.elevator_id ≤ e.elevator_id) := by
  have hinv := reachable_ctrlInv c h
  have havail : ∀ e ∈ c.elevators, e.is_available = true := fun e he =>
    decide_eq_true (hinv.cars e he).not_maint
  have hpw : List.Pairwise (fun a b => a.elevator_id < b.elevator_id) c.elevators := by
    have h1 : List.Pairwise (· < ·) (c.elevators.map Elevator.elevator_id) := by
      rw [hinv.ids]
      unfold idList
      refine List.pairwise_map.mpr ((List.pairwise_lt_range _).imp ?_)
      intro a b hab
      simp only [Int.ofNat_eq_natCast]
      omega
    exact List.pairwise_map.mp h1
  unfold NearestCarScheduler.select_elevator
  rw [filter_eq_self_of_all c.elevators havail]
  cases hl : c.elevators with
  | nil => exact absurd hl hne
  | cons a rest =>
      rw [hl] at hpw
      rw [if_neg (by simp)]
      simp only [NearestCarScheduler.select_loop]
      obtain ⟨r, hr, hcase, hle, hmin, hid⟩ :=
        select_loop_spec { floor := floor, direction := d } rest a
      have hpwc := List.pairwise_cons.mp hpw
      refine ⟨r, hr, ?_, ?_, ?_⟩
      · rcases hcase with rfl | ⟨hmem, _⟩
        · exact List.mem_cons_self _ _
        · exact List.mem_cons_of_mem a hmem
      · intro e he
        rcases List.mem_cons.mp he with rfl | he2
        · exact hle
        · exact hmin e he2
      · intro e he hsc
        refine hid hpwc.1 hpwc.2 e ?_ hsc
        rcases List.mem_cons.mp he with rfl | he2
        · exact Or.inl rfl
        · exact Or.inr he2

/-- C8, witness: the §8 two-car scenario — car 1 moving up past floor 3
toward 8, car 2 idle at floor 1; the hall call (4, Up) selects car 1, and
the general minimality statement holds at that reachable fleet. -/
theorem C8_witness :
    (NearestCarScheduler.select_elevator scen8.elevators
        { floor := 4, direction := Direction.up }).map Elevator.elevator_id = some 1
    ∧ ∃ best, NearestCarScheduler.select_elevator scen8.elevators
          { floor := 4, direction := Direction.up } = some best
        ∧ best ∈ scen8.elevators
        ∧ (∀ e ∈ scen8.elevators,
            NearestCarScheduler.score best { floor := 4, direction := Direction.up }
              ≤ NearestCarScheduler.score e { floor := 4, direction := Direction.up })
        ∧ (∀ e ∈ scen8.elevators,
            NearestCarScheduler.score e { floor := 4, direction := Direction.up }
              = NearestCarScheduler.score best { floor := 4, direction := Direction.up }
            → best.elevator_id ≤ e.elevator_id) :=
  ⟨by decide, C8_select_min scen8 scen8_reachable (by decide) 4 Direction.up⟩

/-! ## Claim C9 — car calls with an unknown car id -/

theorem modify_at_getD (l : List Elevator) (k : ℕ) (f : Elevator → Elevator)
    (dflt : Elevator) (hk : k < l.length) :
    (modify_at l k f).getD k dflt = f (l.getD k dflt) := by
  induction l generalizing k with
  | nil => simp at hk
  | cons x xs ih =>
      cases k with
      | zero => rfl
      | succ n =>
          simp only [modify_at, List.getD_cons_succ]
          exact ih n (by simp only [List.length_cons] at hk; omega)

theorem modify_at_getD_ne (l : List Elevator) (k j : ℕ) (f : Elevator → Elevator)
    (dflt : Elevator) (hne : j ≠ k) :
    (modify_at l k f).getD j dflt = l.getD j dflt := by
  induction l generalizing k j with
  | nil => rfl
  | cons x xs ih =>
      cases k with
      | zero =>
          cases j with
          | zero => exact absurd rfl hne
          | succ m => simp only [modify_at, List.getD_cons_succ]
      | succ n =>
          cases j with
          | zero => rfl
          | succ m =>
              simp only [modify_at, List.getD_cons_succ]
              exact ih n m fun hc => hne (by rw [hc])

theorem getD_map_id (l : List Elevator) (k : ℕ) (dflt : Elevator) (hk : k < l.length) :
    (l.map Elevator.elevator_id).getD k 0 = (l.getD k dflt).elevator_id := by
  induction l generalizing k with
  | nil => simp at hk
  | cons x xs ih =>
      cases k with
      | zero => rfl
      | succ n =>
          simp only [List.map_cons, List.getD_cons_succ]
          exact ih n (by simp only [List.length_cons] at hk; omega)

theorem idList_getD (n k : ℕ) (hk : k < n) : (idList n).getD k 0 = Int.ofNat k + 1 := by
  unfold idList
  rw [List.getD_eq_getElem _ _ (by simpa using hk)]
  simp [List.getElem_map, List.getElem_range]

theorem ctrlInv_getD_id (c : ElevatorController) (h : CtrlInv c) (k : ℕ)
    (hk : k < c.elevators.length) (dflt : Elevator) :
    (c.elevators.getD k dflt).elevator_id = Int.ofNat k + 1 := by
  rw [← getD_map_id c.elevators k dflt hk, h.ids, idList_getD _ _ hk]

/-- C9, counterexample: on a fresh two-car fleet,
`RequestCarCall(0, 10)` — car id 0 identifies no car — does *not* fail:
Python's negative indexing silently resolves `elevators[-1]` to the last
car, the call succeeds and mutates car 2's up-stop set. -/
theorem C9_counterexample :
    ((ElevatorController.init 2 10).destination_request 0 10).map
      (fun c => decide (c = ElevatorController.init 2 10)) = some false
    ∧ ((ElevatorController.init 2 10).destination_request 0 10).map
      (fun c => c.elevators.map Elevator.up_stops) = some [∅, {10}] := by
  exact ⟨by decide, by decide⟩

/-- C9, amended: `RequestCarCall(carID, floor)` on a reachable fleet of
`n` cars never produces an `UnknownCarError` (no such error exists).  For
`carID > n` or `carID ≤ -n` the raw list indexing raises (`none` here)
and no state changes; for `1 - n ≤ carID ≤ 0` the call silently wraps to
position `n + carID - 1` — the car whose id is `n + carID` — applies
`AddStop(floor)` to that car, and leaves every other position
unchanged. -/
theorem C9_amended (c : ElevatorController) (h : Reachable c) (eid floor : ℤ) :
    ((eid ≤ -(c.elevators.length : ℤ) ∨ (c.elevators.length : ℤ) < eid) →
        c.destination_request eid floor = none)
    ∧ ((1 - (c.elevators.length : ℤ) ≤ eid ∧ eid ≤ 0) →
        ∃ c', c.destination_request eid floor = some c'
          ∧ ∃ k : ℕ, (k : ℤ) = (c.elevators.length : ℤ) + eid - 1
            ∧ (∀ dflt : Elevator,
                (c.elevators.getD k dflt).elevator_id = (c.elevators.length : ℤ) + eid
                ∧ c'.elevators.getD k dflt = (c.elevators.getD k dflt).add_stop floor)
            ∧ ∀ j : ℕ, j ≠ k → ∀ dflt : Elevator,
                c'.elevators.getD j dflt = c.elevators.getD j dflt) := by
  constructor
  · intro hout
    unfold ElevatorController.destination_request
    rw [if_neg]
    intro hc
    unfold pyindex at hc
    rcases hout with hsmall | hbig
    · split_ifs at hc <;> omega
    · split_ifs at hc <;> omega
  · intro hin
    obtain ⟨h1, h2⟩ := hin
    have hpy : pyindex c.elevators.length (eid - 1) = (c.elevators.length : ℤ) + eid - 1 := by
      unfold pyindex
      rw [if_pos (by omega)]
      ring
    unfold ElevatorController.destination_request
    rw [if_pos (by rw [hpy]; omega)]
    refine ⟨_, rfl, ((c.elevators.length : ℤ) + eid - 1).toNat,
      Int.toNat_of_nonneg (by omega), ?_, ?_⟩
    · intro dflt
      have hk : ((c.elevators.length : ℤ) + eid - 1).toNat < c.elevators.length := by omega
      constructor
      · rw [ctrlInv_getD_id c (reachable_ctrlInv c h) _ hk dflt]
        simp only [Int.ofNat_eq_natCast]
        omega
      · dsimp only
        rw [hpy]
        exact modify_at_getD c.elevators _ _ dflt hk
    · intro j hj dflt
      dsimp only
      rw [hpy]
      exact modify_at_getD_ne c.elevators _ j _ dflt hj

/-- C9, witness: the silent-wrap branch at the fresh two-car fleet with
`carID = 0`: the call succeeds, targets the car with id `2 + 0 = 2`, and
adds the stop there. -/
theorem C9_witness :
    ∃ c', (ElevatorController.init 2 10).destination_request 0 10 = some c'
      ∧ ∃ k : ℕ, (k : ℤ) = ((ElevatorController.init 2 10).elevators.length : ℤ) + 0 - 1
        ∧ (∀ dflt : Elevator,
            ((ElevatorController.init 2 10).elevators.getD k dflt).elevator_id
              = ((ElevatorController.init 2 10).elevators.length : ℤ) + 0
            ∧ c'.elevators.getD k dflt
              = ((ElevatorController.init 2 10).elevators.getD k dflt).add_stop 10)
        ∧ ∀ j : ℕ, j ≠ k → ∀ dflt : Elevator,
            c'.elevators.getD j dflt = (ElevatorController.init 2 10).elevators.getD j dflt :=
  (C9_amended (ElevatorController.init 2 10) (Reachable.init 2 10) 0 10).2 (by decide)

/-! ## Claim C2 — settlement: the tick potential -/

theorem travel_both_empty (e : Elevator) (h : e.up_stops = ∅ ∧ e.down_stops = ∅) :
    travel e = 0 := by
  simp only [travel]
  rw [if_pos h]

theorem travel_up_eq (e : Elevator)
    (h2 : e.up_stops ≠ ∅ ∧ (e.down_stops = ∅ ∨ e.direction = Direction.up)) :
    travel e = (fmax e.up_stops - e.current_floor) +
      (if e.down_stops = ∅ then 0 else fmax e.up_stops - fmin e.down_stops) := by
  simp only [travel]
  rw [if_neg (fun hc => h2.1 hc.1), if_pos h2]

theorem travel_down_eq (e : Elevator)
    (h1 : ¬ (e.up_stops = ∅ ∧ e.down_stops = ∅))
    (h2 : ¬ (e.up_stops ≠ ∅ ∧ (e.down_stops = ∅ ∨ e.direction = Direction.up))) :
    travel e = (e.current_floor - fmin e.down_stops) +
      (if e.up_stops = ∅ then 0 else fmax e.up_stops - fmin e.down_stops) := by
  simp only [travel]
  rw [if_neg h1, if_neg h2]

theorem down_nonempty_of_routes (e : Elevator)
    (h1 : ¬ (e.up_stops = ∅ ∧ e.down_stops = ∅))
    (h2 : ¬ (e.up_stops ≠ ∅ ∧ (e.down_stops = ∅ ∨ e.direction = Direction.up))) :
    e.down_stops ≠ ∅ := by
  intro hD
  rcases not_and_or.mp h2 with hU | hOr
  · push_neg at hU
    exact h1 ⟨hU, hD⟩
  · exact hOr (Or.inl hD)

theorem travel_nonneg (e : Elevator) (h : CarInv e) : 0 ≤ travel e := by
  by_cases h1 : e.up_stops = ∅ ∧ e.down_stops = ∅
  · rw [travel_both_empty e h1]
  by_cases h2 : e.up_stops ≠ ∅ ∧ (e.down_stops = ∅ ∨ e.direction = Direction.up)
  · rw [travel_up_eq e h2]
    have hfm : e.current_floor ≤ fmax e.up_stops :=
      h.up_ge _ (fmax_mem (Finset.nonempty_iff_ne_empty.mpr h2.1))
    by_cases hD : e.down_stops = ∅
    · rw [if_pos hD]
      omega
    · rw [if_neg hD]
      have hfd : fmin e.down_stops ≤ e.current_floor :=
        h.down_le _ (fmin_mem (Finset.nonempty_iff_ne_empty.mpr hD))
      omega
  · rw [travel_down_eq e h1 h2]
    have hD := down_nonempty_of_routes e h1 h2
    have hfd : fmin e.down_stops ≤ e.current_floor :=
      h.down_le _ (fmin_mem (Finset.nonempty_iff_ne_empty.mpr hD))
    by_cases hU : e.up_stops = ∅
    · rw [if_pos hU]
      omega
    · rw [if_neg hU]
      have hfm : e.current_floor ≤ fmax e.up_stops :=
        h.up_ge _ (fmax_mem (Finset.nonempty_iff_ne_empty.mpr hU))
      omega

theorem pot_nonneg (e : Elevator) (h : CarInv e) : 0 ≤ pot e := by
  have h1 := travel_nonneg e h
  unfold pot
  have h2 : (0 : ℤ) ≤ e.up_stops.card := Int.ofNat_nonneg _
  have h3 : (0 : ℤ) ≤ e.down_stops.card := Int.ofNat_nonneg _
  omega

theorem pot_both_empty (e : Elevator) (h1 : e.up_stops = ∅) (h2 : e.down_stops = ∅) :
    pot e = 0 := by
  unfold pot
  rw [travel_both_empty e ⟨h1, h2⟩, h1, h2]
  simp

theorem pot_stop_up (e : Elevator) (h : CarInv e) (hdir : e.direction = Direction.up)
    (hmem : e.current_floor ∈ e.up_stops) : pot e.stop ≤ pot e - 1 := by
  have hfD : e.current_floor ∉ e.down_stops := fun hc => carInv_disjoint e h _ hmem hc
  have hDer : e.down_stops.erase e.current_floor = e.down_stops :=
    Finset.erase_eq_of_not_mem hfD
  have hUne : e.up_stops ≠ ∅ := Finset.nonempty_iff_ne_empty.mp ⟨_, hmem⟩
  have hfm : e.current_floor ≤ fmax e.up_stops := le_fmax hmem
  have hposU : 0 < e.up_stops.card := Finset.card_pos.mpr ⟨_, hmem⟩
  rw [stop_eq]
  unfold pot
  dsimp only
  rw [hDer, Finset.card_erase_of_mem hmem]
  rw [travel_up_eq e ⟨hUne, Or.inr hdir⟩]
  by_cases hU' : e.up_stops.erase e.current_floor = ∅
  · by_cases hD : e.down_stops = ∅
    · rw [travel_both_empty
        { e with
          state := ElevatorState.idle
          up_stops := e.up_stops.erase e.current_floor
          down_stops := e.down_stops } ⟨hU', hD⟩, if_pos hD]
      omega
    · rw [travel_down_eq
        { e with
          state := ElevatorState.idle
          up_stops := e.up_stops.erase e.current_floor
          down_stops := e.down_stops } (fun hc => hD hc.2) (fun hc => hc.1 hU'), if_neg hD]
      dsimp only
      rw [if_pos hU']
      have hdl : fmin e.down_stops ≤ e.current_floor :=
        h.down_le _ (fmin_mem (Finset.nonempty_iff_ne_empty.mpr hD))
      omega
  · have hU'max : fmax (e.up_stops.erase e.current_floor) ≤ fmax e.up_stops :=
      le_fmax (Finset.mem_of_mem_erase
        (fmax_mem (Finset.nonempty_iff_ne_empty.mpr hU')))
    rw [travel_up_eq
      { e with
          state := ElevatorState.idle
          up_stops := e.up_stops.erase e.current_floor
          down_stops := e.down_stops } ⟨hU', Or.inr hdir⟩]
    dsimp only
    by_cases hD : e.down_stops = ∅
    · rw [if_pos hD, if_pos hD]
      omega
    · rw [if_neg hD, if_neg hD]
      omega

theorem pot_stop_down (e : Elevator) (h : CarInv e) (hdir : e.direction = Direction.down)
    (hmem : e.current_floor ∈ e.down_stops) : pot e.stop ≤ pot e - 1 := by
  have hfU : e.current_floor ∉ e.up_stops := fun hc => carInv_disjoint e h _ hc hmem
  have hUer : e.up_stops.erase e.current_floor = e.up_stops :=
    Finset.erase_eq_of_not_mem hfU
  have hDne : e.down_stops ≠ ∅ := Finset.nonempty_iff_ne_empty.mp ⟨_, hmem⟩
  have hdl : fmin e.down_stops ≤ e.current_floor := h.down_le _ (fmin_mem ⟨_, hmem⟩)
  have hposD : 0 < e.down_stops.card := Finset.card_pos.mpr ⟨_, hmem⟩
  have hne2 : ¬ (e.up_stops ≠ ∅ ∧ (e.down_stops = ∅ ∨ e.direction = Direction.up)) := by
    intro hc
    rcases hc.2 with hD | hu
    · exact hDne hD
    · rw [hdir] at hu
      exact Direction.noConfusion hu
  rw [stop_eq]
  unfold pot
  dsimp only
  rw [hUer, Finset.card_erase_of_mem hmem]
  rw [travel_down_eq e (fun hc => hDne hc.2) hne2]
  by_cases hD' : e.down_stops.erase e.current_floor = ∅
  · by_cases hU : e.up_stops = ∅
    · rw [travel_both_empty
        { e with
          state := ElevatorState.idle
          up_stops := e.up_stops
          down_stops := e.down_stops.erase e.current_floor } ⟨hU, hD'⟩, if_pos hU]
      omega
    · rw [travel_up_eq
        { e with
          state := ElevatorState.idle
          up_stops := e.up_stops
          down_stops := e.down_stops.erase e.current_floor } ⟨hU, Or.inl hD'⟩]
      dsimp only
      rw [if_pos hD', if_neg hU]
      have hfm : e.current_floor ≤ fmax e.up_stops :=
        h.up_ge _ (fmax_mem (Finset.nonempty_iff_ne_empty.mpr hU))
      omega
  · have hD'min : fmin e.down_stops ≤ fmin (e.down_stops.erase e.current_floor) :=
      fmin_le (Finset.mem_of_mem_erase
        (fmin_mem (Finset.nonempty_iff_ne_empty.mpr hD')))
    have hne2' : ¬ (e.up_stops ≠ ∅
        ∧ (e.down_stops.erase e.current_floor = ∅ ∨ e.direction = Direction.up)) := by
      intro hc
      rcases hc.2 with hD | hu
      · exact hD' hD
      · rw [hdir] at hu
        exact Direction.noConfusion hu
    rw [travel_down_eq
      { e with
          state := ElevatorState.idle
          up_stops := e.up_stops
          down_stops := e.down_stops.erase e.current_floor } (fun hc => hD' hc.2) hne2']
    dsimp only
    by_cases hU : e.up_stops = ∅
    · rw [if_pos hU, if_pos hU]
      omega
    · rw [if_neg hU, if_neg hU]
      omega

theorem pot_move_decrease (e : Elevator) (h : CarInv e)
    (hne : e.up_stops ≠ ∅ ∨ e.down_stops ≠ ∅) : pot e.move ≤ pot e - 1 := by
  by_cases hss : e.should_stop = true
  · rw [move_of_should_stop e h.not_maint hss]
    rcases (should_stop_iff e).mp hss with ⟨hdir, hmem⟩ | ⟨hdir, hmem⟩
    · exact pot_stop_up e h hdir hmem
    · exact pot_stop_down e h hdir hmem
  · have hss' : e.should_stop = false := Bool.eq_false_iff.mpr hss
    have h3 : ¬ (e.up_stops = ∅ ∧ e.down_stops = ∅) := by
      intro hc
      rcases hne with hU | hD
      · exact hU hc.1
      · exact hD hc.2
    by_cases h4 : e.up_stops ≠ ∅ ∧ (e.down_stops = ∅ ∨ e.direction = Direction.up)
    · rw [move_up_eq e h.not_maint hss' h4]
      unfold pot
      dsimp only
      rw [travel_up_eq e h4, travel_up_eq
        { e with
          direction := Direction.up
          state := ElevatorState.moving
          current_floor := e.current_floor + 1 } ⟨h4.1, Or.inr rfl⟩]
      dsimp only
      by_cases hD : e.down_stops = ∅
      · rw [if_pos hD]
        omega
      · rw [if_neg hD]
        omega
    · have h5 := down_nonempty_of_routes e h3 h4
      rw [move_down_eq e h.not_maint hss' h4 h5]
      unfold pot
      dsimp only
      have hne2' : ¬ (e.up_stops ≠ ∅
          ∧ (e.down_stops = ∅ ∨ Direction.down = Direction.up)) := by
        intro hc
        rcases hc.2 with hD | hu
        · exact h5 hD
        · exact Direction.noConfusion hu
      rw [travel_down_eq e h3 h4, travel_down_eq
        { e with
          direction := Direction.down
          state := ElevatorState.moving
          current_floor := e.current_floor - 1 } (fun hc => h5 hc.2) hne2']
      dsimp only
      by_cases hU : e.up_stops = ∅
      · rw [if_pos hU]
        omega
      · rw [if_neg hU]
        omega

theorem mu_move_lt (e : Elevator) (h : CarInv e)
    (hne : e.up_stops ≠ ∅ ∨ e.down_stops ≠ ∅) : mu e.move < mu e := by
  have h1 := pot_move_decrease e h hne
  have h2 := pot_nonneg e.move (carInv_move e h)
  unfold mu
  omega

theorem mu_le_bound (e : Elevator) (h : CarInv e) : mu e ≤ (3 * e.max_floor).toNat := by
  by_cases h1 : e.up_stops = ∅ ∧ e.down_stops = ∅
  · have h0 : pot e = 0 := pot_both_empty e h1.1 h1.2
    unfold mu
    omega
  · have hmax1 : 1 ≤ e.max_floor := by
      rcases not_and_or.mp h1 with hU | hD
      · obtain ⟨u, hu⟩ := Finset.nonempty_iff_ne_empty.mpr hU
        have hb1 := h.up_ub u hu
        have hb2 := h.up_ge u hu
        have hb3 := h.floor_lb
        omega
      · obtain ⟨dd, hd⟩ := Finset.nonempty_iff_ne_empty.mpr hD
        have hb1 := h.down_ub dd hd
        have hb2 := h.down_lb dd hd
        omega
    have hcards : (e.up_stops.card : ℤ) + e.down_stops.card ≤ e.max_floor := by
      have hdisj : Disjoint e.up_stops e.down_stops :=
        Finset.disjoint_left.mpr fun {x} hx hy => carInv_disjoint e h x hx hy
      have hsub : e.up_stops ∪ e.down_stops ⊆ Finset.Icc 1 e.max_floor := by
        intro x hx
        rw [Finset.mem_Icc]
        rcases Finset.mem_union.mp hx with hxu | hxd
        · refine ⟨?_, h.up_ub x hxu⟩
          have hb1 := h.up_ge x hxu
          have hb2 := h.floor_lb
          omega
        · exact ⟨h.down_lb x hxd, h.down_ub x hxd⟩
      have hcard := Finset.card_le_card hsub
      rw [Finset.card_union_of_disjoint hdisj, Int.card_Icc] at hcard
      omega
    have htr : travel e ≤ 2 * e.max_floor - 2 := by
      by_cases h2 : e.up_stops ≠ ∅ ∧ (e.down_stops = ∅ ∨ e.direction = Direction.up)
      · rw [travel_up_eq e h2]
        have hup : fmax e.up_stops ≤ e.max_floor :=
          h.up_ub _ (fmax_mem (Finset.nonempty_iff_ne_empty.mpr h2.1))
        have hf1 := h.floor_lb
        by_cases hD : e.down_stops = ∅
        · rw [if_pos hD]
          omega
        · rw [if_neg hD]
          have hdlb : 1 ≤ fmin e.down_stops :=
            h.down_lb _ (fmin_mem (Finset.nonempty_iff_ne_empty.mpr hD))
          omega
      · rw [travel_down_eq e h1 h2]
        have hD := down_nonempty_of_routes e h1 h2
        have hdlb : 1 ≤ fmin e.down_stops :=
          h.down_lb _ (fmin_mem (Finset.nonempty_iff_ne_empty.mpr hD))
        have hfub : e.current_floor ≤ e.max_floor := by
          rcases h.floor_ub with hh | hh
          · exact hh
          · omega
        by_cases hU : e.up_stops = ∅
        · rw [if_pos hU]
          omega
        · rw [if_neg hU]
          have hup : fmax e.up_stops ≤ e.max_floor :=
            h.up_ub _ (fmax_mem (Finset.nonempty_iff_ne_empty.mpr hU))
          omega
    unfold mu pot
    omega

theorem tick_clears (e : Elevator) (h : CarInv e) (n : ℕ) (hn : mu e ≤ n) :
    ((ElevatorController.tick_car)^[n] e).up_stops = ∅
    ∧ ((ElevatorController.tick_car)^[n] e).down_stops = ∅ := by
  induction n generalizing e with
  | zero =>
      have hpot := travel_nonneg e h
      unfold mu pot at hn
      have hU : e.up_stops.card = 0 := by omega
      have hD : e.down_stops.card = 0 := by omega
      simp only [Function.iterate_zero, id_eq]
      exact ⟨Finset.card_eq_zero.mp hU, Finset.card_eq_zero.mp hD⟩
  | succ n ih =>
      rw [Function.iterate_succ_apply]
      by_cases hcase : e.up_stops ≠ ∅ ∨ e.down_stops ≠ ∅
      · have htick : ElevatorController.tick_car e = e.move := by
          unfold ElevatorController.tick_car
          rw [if_pos hcase]
        rw [htick]
        have hlt := mu_move_lt e h hcase
        exact ih e.move (carInv_move e h) (by omega)
      · push_neg at hcase
        have htick : ElevatorController.tick_car e = e := by
          unfold ElevatorController.tick_car
          rw [if_neg (by push_neg; exact hcase)]
        rw [htick]
        have h0 : mu e = 0 := by
          unfold mu
          rw [pot_both_empty e hcase.1 hcase.2]
          rfl
        exact ih e h (by omega)

theorem step_elevators (c : ElevatorController) :
    (ElevatorController.step c).elevators = c.elevators.map ElevatorController.tick_car := rfl

theorem step_iterate_elevators (c : ElevatorController) (n : ℕ) :
    ((ElevatorController.step)^[n] c).elevators
      = c.elevators.map ((ElevatorController.tick_car)^[n]) := by
  induction n with
  | zero => simp
  | succ n ih =>
      rw [Function.iterate_succ_apply', step_elevators, ih, List.map_map,
        Function.iterate_succ']

theorem step_iterate_num_floors (c : ElevatorController) (n : ℕ) :
    ((ElevatorController.step)^[n] c).num_floors = c.num_floors := by
  induction n with
  | zero => rfl
  | succ n ih => rw [Function.iterate_succ_apply']; exact ih

theorem step_eq_self (c : ElevatorController)
    (h : ∀ e ∈ c.elevators, e.up_stops = ∅ ∧ e.down_stops = ∅) :
    ElevatorController.step c = c := by
  have hmapid : ∀ e ∈ c.elevators, ElevatorController.tick_car e = id e := by
    intro e he
    have h2 := h e he
    unfold ElevatorController.tick_car
    rw [if_neg (by push_neg; exact ⟨h2.1, h2.2⟩)]
    rfl
  show { c with elevators := c.elevators.map ElevatorController.tick_car } = c
  rw [List.map_congr_left hmapid, List.map_id]

/-- C2, counterexample: one car, `maxFloor = 2`, one hall call for
floor 2.  `2 * maxFloor = 4` ticks later `IsSettled()` is still false —
the car has served everything but its direction stays `Up` (the
controller skips `move` once the stop sets are empty, so the
direction-reset branch never runs) — and it is still false after 10
ticks. -/
theorem C2_counterexample :
    ((ElevatorController.step)^[4] scen2).is_settled = false
    ∧ ((ElevatorController.step)^[10] scen2).is_settled = false := by
  exact ⟨by decide, by decide⟩

/-- C2, amended: from any reachable controller state, after at most
`3 * maxFloor` further ticks (and with no further calls) every car's stop
sets are empty and `Step()` is from then on the identity — the fleet is
quiescent.  The spec's `IsSettled()` itself need not become true: the
direction field keeps its last travel value (see the counterexample), so
settlement as literally specified is never observed once a car has
moved. -/
theorem C2_amended (c : ElevatorController) (h : Reachable c) (n : ℕ)
    (hn : (3 * c.num_floors).toNat ≤ n) :
    (∀ e ∈ ((ElevatorController.step)^[n] c).elevators,
        e.up_stops = ∅ ∧ e.down_stops = ∅)
    ∧ ElevatorController.step ((ElevatorController.step)^[n] c)
        = (ElevatorController.step)^[n] c := by
  have hinv := reachable_ctrlInv c h
  have hempty : ∀ e ∈ ((ElevatorController.step)^[n] c).elevators,
      e.up_stops = ∅ ∧ e.down_stops = ∅ := by
    rw [step_iterate_elevators c n]
    intro e he
    obtain ⟨y, hy, rfl⟩ := List.mem_map.mp he
    have hciy := hinv.cars y hy
    refine tick_clears y hciy n ?_
    have hb := mu_le_bound y hciy
    have hmax := hinv.floors y hy
    rw [hmax] at hb
    omega
  exact ⟨hempty, step_eq_self _ hempty⟩

/-- C2, witness: the amended quiescence at the counterexample fleet
(`maxFloor = 2`, so six ticks suffice). -/
theorem C2_witness :
    (∀ e ∈ ((ElevatorController.step)^[6] scen2).elevators,
        e.up_stops = ∅ ∧ e.down_stops = ∅)
    ∧ ElevatorController.step ((ElevatorController.step)^[6] scen2)
        = (ElevatorController.step)^[6] scen2 :=
  C2_amended scen2 scen2_reachable 6 (by decide)
